import Mathlib

/-!
# Verification of the parseable-interface build cache
  (lib/Frontend/ParseableInterfaceSupport.cpp)

Shallow embedding of the cache-and-rebuild subsystem: up-to-date
validation against recorded dependency fingerprints
(`swiftModuleIsUpToDate`), transitive dependency collection across
nested cached artifacts (`collectDepsForSerialization`), the
crash-isolated rebuild driver (`buildSwiftModuleFromSwiftInterface`)
and the loader policy (`openModuleFiles`).

External collaborators (the virtual filesystem, `xxHash64`,
`serialization::validateSerializedAST`, the regex-based header
extraction, argument parsing, and the sema/SILGen/SIL-processing
compile pipeline) are opaque in the C++ source; they are modelled as
fields of an environment record, so every theorem is universally
quantified over their behaviour.  Side effects (file reads, calls to
the outer `DependencyTracker::addDependency`, artifact writes, rebuild
invocations) are made explicit as an `Effect` trace returned next to
each function's C++ return value.
-/

namespace ParseableInterface

/-- File content as a byte list; `getBufferSize` is its length. -/
abbrev Bytes := List Nat

/-- Error cases of `FS.getBufferForFile` that the source distinguishes:
`serializedASTLooksValidOrCannotBeRead` compares the error code against
`std::errc::no_such_file_or_directory`; all other codes are lumped. -/
inductive ReadError
  | noSuchFile
  | otherError
deriving DecidableEq, Repr

/-- Embedding of `SerializationOptions::FileDependency`: one ledger entry,
a (size, hash) fingerprint recorded for a path. -/
structure FileDependency where
  Size : Nat
  Hash : Nat
  Path : String
deriving DecidableEq, Repr

/-- Status codes of `serialization::validateSerializedAST`.  The source
only ever compares against `Valid`; a handful of the non-valid codes
are kept for shape. -/
inductive SerStatus
  | Valid
  | Malformed
  | FormatTooNew
  | NameMismatch
deriving DecidableEq, Repr

/-- The part of `serialization::ValidationInfo` the source reads. -/
structure ValidationInfo where
  status : SerStatus
  name : String
deriving DecidableEq, Repr

/-- Opaque external collaborators of the subsystem.
`fs` is `clang::vfs::FileSystem::getBufferForFile`, `fsExists` is
`FS.exists`, `hash` is `llvm::xxHash64`, and `validate` is
`serialization::validateSerializedAST` together with the `AllDeps`
out-parameter holding the embedded dependency ledger. -/
structure Env where
  fs : String → Except ReadError Bytes
  fsExists : String → Bool
  hash : Bytes → Nat
  validate : Bytes → ValidationInfo × List FileDependency

/-- Observable side effects of the subsystem: a filesystem read, a call
to the outer `DependencyTracker::addDependency`, a completed artifact
write (the `serialize` callback running to completion), and the loader
invoking the rebuild step.  `compileInvoked` marks entry into the
compile pipeline (`CompilerInstance::setup`/`performSema`/SILGen). -/
inductive Effect
  | readFile (path : String)
  | addDep (path : String)
  | writeFile (path : String)
  | rebuild (path : String)
  | compileInvoked
deriving DecidableEq, Repr

/-- Effects that mutate state or start a rebuild; the validator must
emit none of these (spec: "a pure read-and-compare pass"). -/
def Effect.isMutating : Effect → Bool
  | .writeFile _ => true
  | .rebuild _ => true
  | .compileInvoked => true
  | _ => false

/-- One ledger entry re-fingerprints identically against the live
filesystem: the file at `d.Path` is readable, and recorded size and
hash both match the live content (the condition negated at line
224-226 of the source). -/
def depUpToDate (env : Env) (d : FileDependency) : Bool :=
  match env.fs d.Path with
  | .error _ => false
  | .ok buf => if buf.length ≠ d.Size ∨ env.hash buf ≠ d.Hash then false else true

/-- The loop of `swiftModuleIsUpToDate` (source lines 219-233): for
each recorded dependency, in order, first report it to the outer
tracker, then read and compare size and hash, returning `false` at the
first failure without touching the remaining entries. -/
def checkDeps (env : Env) : List FileDependency → Bool × List Effect
  | [] => (true, [])
  | d :: rest =>
    let tr := [Effect.addDep d.Path, Effect.readFile d.Path]
    match env.fs d.Path with
    | .error _ => (false, tr)
    | .ok buf =>
      if buf.length ≠ d.Size ∨ env.hash buf ≠ d.Hash then (false, tr)
      else
        let r := checkDeps env rest
        (r.1, tr ++ r.2)

/-- Embedding of `swiftModuleIsUpToDate` (source lines 196-234): read the candidate
artifact at `outPath`, fail closed if unreadable or if
`validateSerializedAST` does not report `Valid`, then check every
ledger entry in order. -/
def swiftModuleIsUpToDate (env : Env) (outPath : String) : Bool × List Effect :=
  match env.fs outPath with
  | .error _ => (false, [Effect.readFile outPath])
  | .ok outBuf =>
    let v := env.validate outBuf
    if v.1.status ≠ SerStatus.Valid then (false, [Effect.readFile outPath])
    else
      let r := checkDeps env v.2
      (r.1, Effect.readFile outPath :: r.2)

/-- The prefix of the ledger the validator actually examines: the
longest prefix of up-to-date entries, plus the first stale entry when
one exists. -/
def depsExamined (env : Env) (deps : List FileDependency) : List FileDependency :=
  deps.takeWhile (depUpToDate env) ++ (deps.dropWhile (depUpToDate env)).take 1

/-- The addDep-then-read event pair the dependency loop emits per
examined entry. -/
def depCheckEvents (d : FileDependency) : List Effect :=
  [Effect.addDep d.Path, Effect.readFile d.Path]

theorem checkDeps_eq (env : Env) (deps : List FileDependency) :
    checkDeps env deps =
      (deps.all (depUpToDate env),
       (depsExamined env deps).flatMap depCheckEvents) := by
  induction deps with
  | nil => simp [checkDeps, depsExamined]
  | cons d rest ih =>
    cases hfs : env.fs d.Path with
    | error e =>
      have hd : depUpToDate env d = false := by simp [depUpToDate, hfs]
      simp [checkDeps, hfs, depsExamined, List.takeWhile_cons, List.dropWhile_cons,
            hd, depCheckEvents]
    | ok buf =>
      by_cases hm : buf.length ≠ d.Size ∨ env.hash buf ≠ d.Hash
      · have hd : depUpToDate env d = false := by simp [depUpToDate, hfs, hm]
        simp [checkDeps, hfs, hm, depsExamined, List.takeWhile_cons,
              List.dropWhile_cons, hd, depCheckEvents]
      · have hd : depUpToDate env d = true := by simp [depUpToDate, hfs, hm]
        simp [checkDeps, hfs, hm, depsExamined, List.takeWhile_cons,
              List.dropWhile_cons, hd, ih, depCheckEvents]

/-- C1: The up-to-date validator returns up-to-date iff the candidate
artifact file is readable, deserializes with `Valid` status, and every
`FileDependency` of its embedded ledger re-reads with matching
recorded size and hash; it fails closed on an unreadable or
undeserializable artifact, and on a readable, valid artifact its event
trace covers exactly the longest up-to-date prefix of the ledger plus
the first stale entry (checked in order, short-circuiting: remaining
entries are neither reported nor read). -/
theorem upToDate_characterization (env : Env) (outPath : String) :
    ((swiftModuleIsUpToDate env outPath).1 = true ↔
      ∃ buf, env.fs outPath = Except.ok buf ∧
        (env.validate buf).1.status = SerStatus.Valid ∧
        (env.validate buf).2.all (depUpToDate env) = true) ∧
    (∀ buf, env.fs outPath = Except.ok buf →
      (env.validate buf).1.status = SerStatus.Valid →
      (swiftModuleIsUpToDate env outPath).2 =
        Effect.readFile outPath ::
          (depsExamined env (env.validate buf).2).flatMap depCheckEvents) := by
  constructor
  · cases hfs : env.fs outPath with
    | error e => simp [swiftModuleIsUpToDate, hfs]
    | ok buf =>
      by_cases hv : (env.validate buf).1.status = SerStatus.Valid
      · simp [swiftModuleIsUpToDate, hfs, hv, checkDeps_eq]
      · simp [swiftModuleIsUpToDate, hfs, hv]
  · intro buf hfs hv
    simp [swiftModuleIsUpToDate, hfs, hv, checkDeps_eq]

/-- Witness for C1: a concrete environment exercising both conjuncts,
with a ledger whose second entry is stale so the third is never
examined. -/
def wEnvC1 : Env where
  fs := fun p =>
    if p = "/cache/M.swiftmodule" then Except.ok [9]
    else if p = "/d/a.txt" then Except.ok [1, 2]
    else if p = "/d/b.txt" then Except.ok [3]
    else Except.error ReadError.noSuchFile
  fsExists := fun _ => false
  hash := fun b => b.foldl (fun a x => a + x) 0
  validate := fun b =>
    if b = [9] then
      (⟨SerStatus.Valid, "M"⟩,
       [⟨2, 3, "/d/a.txt"⟩, ⟨1, 99, "/d/b.txt"⟩, ⟨1, 1, "/d/c.txt"⟩])
    else (⟨SerStatus.Malformed, ""⟩, [])

theorem upToDate_characterization_witness :
    (swiftModuleIsUpToDate wEnvC1 "/cache/M.swiftmodule").2 =
      Effect.readFile "/cache/M.swiftmodule" ::
        (depsExamined wEnvC1 (wEnvC1.validate [9]).2).flatMap depCheckEvents :=
  (upToDate_characterization wEnvC1 "/cache/M.swiftmodule").2 [9] (by rfl) (by rfl)

/-- Embedding of the C++ test that
`lookupTypeForExtension(path::extension(p))` yields the
compiled-artifact file type: the path carries the compiled-artifact
extension (stated over the character sequence). -/
def isSwiftModuleFileType (p : String) : Bool :=
  ".swiftmodule".data.isSuffixOf p.data

/-- Embedding of the C++ `DepName.startswith(ModuleCachePath)` test, over the character
sequence. -/
def strStartsWith (p pre : String) : Bool :=
  pre.data.isPrefixOf p.data

/-- The splice condition of `collectDepsForSerialization` (source lines
277-280): the dependency has the compiled-artifact file type and lies
inside the module cache directory. -/
def isCachedArtifact (cachePath p : String) : Bool :=
  isSwiftModuleFileType p && strStartsWith p cachePath

/-- The inner splice loop (source lines 291-297): each entry of a
nested artifact's ledger whose path is not yet in `AllDepNames` is
appended to the result, recorded as seen, and reported to the outer
tracker.  Returns (spliced entries, updated seen set, tracker events). -/
def spliceSubDeps : List FileDependency → List String →
    List FileDependency × List String × List Effect
  | [], seen => ([], seen, [])
  | d :: rest, seen =>
    if d.Path ∈ seen then spliceSubDeps rest seen
    else
      let r := spliceSubDeps rest (d.Path :: seen)
      (d :: r.1, r.2.1, Effect.addDep d.Path :: r.2.2)

/-- The main loop of `collectDepsForSerialization` (source lines
258-299) over the seed names, threading `AllDepNames` (`seen`).  Per
name: report it to the outer tracker if new, read it (fail the whole
collection if unreadable), push its fingerprint entry unconditionally,
and if it is a cached artifact inside a non-empty cache directory,
deserialize its embedded ledger (fail the whole collection if not
`Valid`) and splice the unseen entries.  Returns (ledger or failure,
final seen set, events). -/
def collectGo (env : Env) (cachePath : String) :
    List String → List String →
    Option (List FileDependency) × List String × List Effect
  | [], seen => (some [], seen, [])
  | depName :: rest, seen =>
    let seen1 := if depName ∈ seen then seen else depName :: seen
    let tr0 : List Effect := if depName ∈ seen then [] else [Effect.addDep depName]
    match env.fs depName with
    | .error _ => (none, seen1, tr0 ++ [Effect.readFile depName])
    | .ok buf =>
      let entry : FileDependency := ⟨buf.length, env.hash buf, depName⟩
      if !cachePath.isEmpty && isCachedArtifact cachePath depName then
        let v := env.validate buf
        if v.1.status ≠ SerStatus.Valid then
          (none, seen1, tr0 ++ [Effect.readFile depName])
        else
          let s := spliceSubDeps v.2 seen1
          let r := collectGo env cachePath rest s.2.1
          (r.1.map (fun ds => entry :: (s.1 ++ ds)), r.2.1,
           tr0 ++ Effect.readFile depName :: (s.2.2 ++ r.2.2))
      else
        let r := collectGo env cachePath rest seen1
        (r.1.map (fun ds => entry :: ds), r.2.1,
         tr0 ++ Effect.readFile depName :: r.2.2)

/-- Embedding of `collectDepsForSerialization` (source lines 247-301): the seed
names are the sub-instance tracker's read set with the interface input
path appended (`InitialDepNames.push_back(InPath)`, line 256), and
`AllDepNames` starts empty. -/
def collectDepsForSerialization (env : Env) (inPath cachePath : String)
    (dtDeps : List String) :
    Option (List FileDependency) × List String × List Effect :=
  collectGo env cachePath (dtDeps ++ [inPath]) []

/-- On success every seed name was read and its fingerprint entry is in
the resulting ledger. -/
theorem collectGo_mem_of_success (env : Env) (cachePath : String) :
    ∀ (names seen : List String) (ds : List FileDependency),
      (collectGo env cachePath names seen).1 = some ds →
      ∀ n ∈ names, ∃ buf, env.fs n = Except.ok buf ∧
        (⟨buf.length, env.hash buf, n⟩ : FileDependency) ∈ ds := by
  intro names
  induction names with
  | nil => intro seen ds _ n hn; simp at hn
  | cons depName rest ih =>
    intro seen ds hds n hn
    rw [collectGo] at hds
    cases hfs : env.fs depName with
    | error e => simp [hfs] at hds
    | ok buf =>
      simp only [hfs] at hds
      by_cases hsp : (!cachePath.isEmpty && isCachedArtifact cachePath depName) = true
      · simp only [hsp, if_true] at hds
        by_cases hv : (env.validate buf).1.status = SerStatus.Valid
        case neg =>
          simp only [if_pos (show (env.validate buf).1.status ≠ SerStatus.Valid from hv)]
            at hds
          simp at hds
        case pos =>
          simp only [if_neg
            (show ¬((env.validate buf).1.status ≠ SerStatus.Valid) from by simp [hv])] at hds
          obtain ⟨ds', hds', rfl⟩ := Option.map_eq_some'.mp hds
          rcases List.mem_cons.mp hn with rfl | hn'
          · exact ⟨buf, hfs, by simp⟩
          · obtain ⟨b, hb, hmem⟩ := ih _ _ hds' n hn'
            exact ⟨b, hb, by simp [hmem]⟩
      · simp only [Bool.not_eq_true] at hsp
        simp only [hsp, Bool.false_eq_true, if_false] at hds
        obtain ⟨ds', hds', rfl⟩ := Option.map_eq_some'.mp hds
        rcases List.mem_cons.mp hn with rfl | hn'
        · exact ⟨buf, hfs, by simp⟩
        · obtain ⟨b, hb, hmem⟩ := ih _ _ hds' n hn'
          exact ⟨b, hb, by simp [hmem]⟩

theorem spliceSubDeps_seen_mono (sub : List FileDependency) :
    ∀ (seen : List String) (p : String), p ∈ seen →
      p ∈ (spliceSubDeps sub seen).2.1 := by
  induction sub with
  | nil => intro seen p hp; simpa [spliceSubDeps] using hp
  | cons d rest ih =>
    intro seen p hp
    rw [spliceSubDeps]
    by_cases hd : d.Path ∈ seen
    · simpa [hd] using ih seen p hp
    · simpa [hd] using ih (d.Path :: seen) p (by simp [hp])

theorem spliceSubDeps_mem_seen (sub : List FileDependency) :
    ∀ (seen : List String) (d : FileDependency), d ∈ sub →
      d.Path ∈ (spliceSubDeps sub seen).2.1 := by
  induction sub with
  | nil => intro seen d hd; simp at hd
  | cons a rest ih =>
    intro seen d hd
    rw [spliceSubDeps]
    by_cases ha : a.Path ∈ seen
    · rcases List.mem_cons.mp hd with rfl | hd'
      · simpa [ha] using spliceSubDeps_seen_mono rest seen d.Path ha
      · simpa [ha] using ih seen d hd'
    · rcases List.mem_cons.mp hd with rfl | hd'
      · simpa [ha] using
          spliceSubDeps_seen_mono rest (d.Path :: seen) d.Path (by simp)
      · simpa [ha] using ih (a.Path :: seen) d hd'

theorem spliceSubDeps_seen_src (sub : List FileDependency) :
    ∀ (seen : List String) (p : String), p ∈ (spliceSubDeps sub seen).2.1 →
      p ∈ seen ∨ (p ∈ (spliceSubDeps sub seen).1.map FileDependency.Path ∧
        Effect.addDep p ∈ (spliceSubDeps sub seen).2.2) := by
  induction sub with
  | nil => intro seen p hp; left; simpa [spliceSubDeps] using hp
  | cons d rest ih =>
    intro seen p hp
    rw [spliceSubDeps] at hp ⊢
    by_cases hd : d.Path ∈ seen
    · simp only [hd, if_true] at hp ⊢
      exact ih seen p hp
    · simp only [hd, if_false] at hp ⊢
      rcases ih (d.Path :: seen) p hp with hseen | ⟨hmap, htr⟩
      · rcases List.mem_cons.mp hseen with rfl | h'
        · right; constructor
          · simp
          · simp
        · left; exact h'
      · right; constructor
        · simp [hmap]
        · simp [htr]

theorem spliceSubDeps_effects (sub : List FileDependency) :
    ∀ (seen : List String) (e : Effect), e ∈ (spliceSubDeps sub seen).2.2 →
      ∃ q, e = Effect.addDep q := by
  induction sub with
  | nil => intro seen e he; simp [spliceSubDeps] at he
  | cons d rest ih =>
    intro seen e he
    rw [spliceSubDeps] at he
    by_cases hd : d.Path ∈ seen
    · simp only [hd, if_true] at he
      exact ih seen e he
    · simp only [hd, if_false] at he
      rcases List.mem_cons.mp he with rfl | h'
      · exact ⟨d.Path, rfl⟩
      · exact ih (d.Path :: seen) e h'

theorem collectGo_seen_mono (env : Env) (cachePath : String) :
    ∀ (names seen : List String) (p : String), p ∈ seen →
      p ∈ (collectGo env cachePath names seen).2.1 := by
  intro names
  induction names with
  | nil => intro seen p hp; simpa [collectGo] using hp
  | cons depName rest ih =>
    intro seen p hp
    rw [collectGo]
    have hp1 : p ∈ (if depName ∈ seen then seen else depName :: seen) := by
      by_cases hd : depName ∈ seen <;> simp [hd, hp]
    cases hfs : env.fs depName with
    | error e => simpa using hp1
    | ok buf =>
      by_cases hsp : (!cachePath.isEmpty && isCachedArtifact cachePath depName) = true
      · simp only [hsp, if_true]
        by_cases hv : (env.validate buf).1.status = SerStatus.Valid
        case neg =>
          simp only [if_pos (show (env.validate buf).1.status ≠ SerStatus.Valid from hv)]
          simpa using hp1
        case pos =>
          simp only [if_neg
            (show ¬((env.validate buf).1.status ≠ SerStatus.Valid) from by simp [hv])]
          exact ih _ p (spliceSubDeps_seen_mono _ _ p hp1)
      · simp only [Bool.not_eq_true] at hsp
        simp only [hsp, Bool.false_eq_true, if_false]
        exact ih _ p hp1

theorem collectGo_seen_src (env : Env) (cachePath : String) :
    ∀ (names seen : List String) (ds : List FileDependency),
      (collectGo env cachePath names seen).1 = some ds →
      ∀ p ∈ (collectGo env cachePath names seen).2.1,
        p ∈ seen ∨ (p ∈ ds.map FileDependency.Path ∧
          Effect.addDep p ∈ (collectGo env cachePath names seen).2.2) := by
  intro names
  induction names with
  | nil =>
    intro seen ds _ p hp
    left; simpa [collectGo] using hp
  | cons depName rest ih =>
    intro seen ds hds p hp
    rw [collectGo] at hds hp ⊢
    have seen1_src : p ∈ (if depName ∈ seen then seen else depName :: seen) →
        p ∈ seen ∨ (p = depName ∧
          Effect.addDep p ∈
            (if depName ∈ seen then ([] : List Effect) else [Effect.addDep depName])) := by
      intro h
      by_cases hd : depName ∈ seen
      · left; simpa [hd] using h
      · simp only [hd, if_false] at h ⊢
        rcases List.mem_cons.mp h with rfl | h'
        · right; exact ⟨rfl, by simp⟩
        · left; exact h'
    cases hfs : env.fs depName with
    | error e => simp [hfs] at hds
    | ok buf =>
      simp only [hfs] at hds hp ⊢
      by_cases hsp : (!cachePath.isEmpty && isCachedArtifact cachePath depName) = true
      · simp only [hsp, if_true] at hds hp ⊢
        by_cases hv : (env.validate buf).1.status = SerStatus.Valid
        case neg =>
          simp only [if_pos (show (env.validate buf).1.status ≠ SerStatus.Valid from hv)]
            at hds
          simp at hds
        case pos =>
          simp only [if_neg
            (show ¬((env.validate buf).1.status ≠ SerStatus.Valid) from by simp [hv])]
            at hds hp ⊢
          obtain ⟨ds', hds', rfl⟩ := Option.map_eq_some'.mp hds
          rcases ih _ ds' hds' p hp with hmid | ⟨hmap, htr⟩
          · rcases spliceSubDeps_seen_src _ _ p hmid with hs1 | ⟨hmapS, htrS⟩
            · rcases seen1_src hs1 with hleft | ⟨rfl, htr0⟩
              · left; exact hleft
              · right; constructor
                · simp
                · by_cases hd : p ∈ seen
                  · simp [hd] at htr0
                  · simp [hd]
            · right; constructor
              · simp only [List.map_cons, List.map_append, List.mem_cons,
                  List.mem_append]
                right; left; exact hmapS
              · simp [htrS]
          · right; constructor
            · simp only [List.map_cons, List.map_append, List.mem_cons,
                List.mem_append]
              right; right; exact hmap
            · simp [htr]
      · simp only [Bool.not_eq_true] at hsp
        simp only [hsp, Bool.false_eq_true, if_false] at hds hp ⊢
        obtain ⟨ds', hds', rfl⟩ := Option.map_eq_some'.mp hds
        rcases ih _ ds' hds' p hp with hmid | ⟨hmap, htr⟩
        · rcases seen1_src hmid with hleft | ⟨rfl, htr0⟩
          · left; exact hleft
          · right; constructor
            · simp
            · by_cases hd : p ∈ seen
              · simp [hd] at htr0
              · simp [hd]
        · right; constructor
          · simp [hmap]
          · simp [htr]

theorem collectGo_subdeps_in_seen (env : Env) (cachePath : String)
    (b : String) (bbuf : Bytes)
    (hread : env.fs b = Except.ok bbuf)
    (hart : (!cachePath.isEmpty && isCachedArtifact cachePath b) = true)
    (hvalid : (env.validate bbuf).1.status = SerStatus.Valid) :
    ∀ (names seen : List String) (ds : List FileDependency),
      b ∈ names →
      (collectGo env cachePath names seen).1 = some ds →
      ∀ d ∈ (env.validate bbuf).2, d.Path ∈ (collectGo env cachePath names seen).2.1 := by
  intro names
  induction names with
  | nil => intro seen ds hb; simp at hb
  | cons depName rest ih =>
    intro seen ds hb hds d hd
    rw [collectGo] at hds ⊢
    rcases List.mem_cons.mp hb with rfl | hb'
    · simp only [hread, hart, if_true] at hds ⊢
      simp only [if_neg
        (show ¬((env.validate bbuf).1.status ≠ SerStatus.Valid) from by simp [hvalid])]
        at hds ⊢
      exact collectGo_seen_mono env cachePath rest _ d.Path
        (spliceSubDeps_mem_seen _ _ d hd)
    · cases hfs : env.fs depName with
      | error e => simp [hfs] at hds
      | ok buf =>
        simp only [hfs] at hds ⊢
        by_cases hsp : (!cachePath.isEmpty && isCachedArtifact cachePath depName) = true
        · simp only [hsp, if_true] at hds ⊢
          by_cases hv : (env.validate buf).1.status = SerStatus.Valid
          case neg =>
            simp only [if_pos (show (env.validate buf).1.status ≠ SerStatus.Valid from hv)]
              at hds
            simp at hds
          case pos =>
            simp only [if_neg
              (show ¬((env.validate buf).1.status ≠ SerStatus.Valid) from by simp [hv])]
              at hds ⊢
            obtain ⟨ds', hds', rfl⟩ := Option.map_eq_some'.mp hds
            exact ih _ ds' hb' hds' d hd
        · simp only [Bool.not_eq_true] at hsp
          simp only [hsp, Bool.false_eq_true, if_false] at hds ⊢
          obtain ⟨ds', hds', rfl⟩ := Option.map_eq_some'.mp hds
          exact ih _ ds' hb' hds' d hd

theorem collectGo_effects (env : Env) (cachePath : String) :
    ∀ (names seen : List String) (e : Effect),
      e ∈ (collectGo env cachePath names seen).2.2 →
      (∃ q, e = Effect.addDep q) ∨ (∃ q, e = Effect.readFile q) := by
  intro names
  induction names with
  | nil => intro seen e he; simp [collectGo] at he
  | cons depName rest ih =>
    intro seen e he
    rw [collectGo] at he
    have htr0 : ∀ x ∈ (if depName ∈ seen then ([] : List Effect)
        else [Effect.addDep depName]), ∃ q, x = Effect.addDep q := by
      intro x hx
      by_cases hd : depName ∈ seen
      · simp [hd] at hx
      · simp [hd] at hx
        exact ⟨depName, hx⟩
    cases hfs : env.fs depName with
    | error err =>
      simp only [hfs] at he
      rcases List.mem_append.mp he with h0 | h1
      · exact Or.inl (htr0 e h0)
      · simp at h1
        exact Or.inr ⟨depName, h1⟩
    | ok buf =>
      simp only [hfs] at he
      by_cases hsp : (!cachePath.isEmpty && isCachedArtifact cachePath depName) = true
      · simp only [hsp, if_true] at he
        by_cases hv : (env.validate buf).1.status = SerStatus.Valid
        case neg =>
          simp only [if_pos (show (env.validate buf).1.status ≠ SerStatus.Valid from hv)]
            at he
          rcases List.mem_append.mp he with h0 | h1
          · exact Or.inl (htr0 e h0)
          · simp at h1
            exact Or.inr ⟨depName, h1⟩
        case pos =>
          simp only [if_neg
            (show ¬((env.validate buf).1.status ≠ SerStatus.Valid) from by simp [hv])]
            at he
          rcases List.mem_append.mp he with h0 | h1
          · exact Or.inl (htr0 e h0)
          · rcases List.mem_cons.mp h1 with rfl | h2
            · exact Or.inr ⟨depName, rfl⟩
            · rcases List.mem_append.mp h2 with h3 | h4
              · exact Or.inl (spliceSubDeps_effects _ _ e h3)
              · exact ih _ e h4
      · simp only [Bool.not_eq_true] at hsp
        simp only [hsp, Bool.false_eq_true, if_false] at he
        rcases List.mem_append.mp he with h0 | h1
        · exact Or.inl (htr0 e h0)
        · rcases List.mem_cons.mp h1 with rfl | h2
          · exact Or.inr ⟨depName, rfl⟩
          · exact ih _ e h2

/-- A seed dependency that cannot be read from the filesystem
(`getBufferOfDependency` fails, source line 262-265). -/
def depReadFails (env : Env) (n : String) : Bool :=
  match env.fs n with
  | .error _ => true
  | .ok _ => false

/-- A seed dependency that is a nested cached artifact (compiled-artifact
type inside the cache directory) whose embedded ledger fails to
deserialize (source lines 279-290). -/
def nestedArtifactInvalid (env : Env) (cachePath n : String) : Bool :=
  match env.fs n with
  | .error _ => false
  | .ok buf =>
    (!cachePath.isEmpty && isCachedArtifact cachePath n) &&
      decide ((env.validate buf).1.status ≠ SerStatus.Valid)

theorem collectGo_fails (env : Env) (cachePath : String) :
    ∀ (names seen : List String),
      (names.any fun n => depReadFails env n || nestedArtifactInvalid env cachePath n) =
        true →
      (collectGo env cachePath names seen).1 = none := by
  intro names
  induction names with
  | nil => intro seen h; simp at h
  | cons depName rest ih =>
    intro seen h
    rw [collectGo]
    rcases List.any_eq_true.mp h with ⟨n, hn, hbad⟩
    rcases List.mem_cons.mp hn with rfl | hn'
    · cases hfs : env.fs n with
      | error e => simp [hfs]
      | ok buf =>
        simp only [depReadFails, nestedArtifactInvalid, hfs, Bool.false_or,
          Bool.and_eq_true, decide_eq_true_eq] at hbad
        simp only [hfs, hbad.1, if_true]
        simp [if_pos hbad.2]
    · have hrest : (rest.any fun n =>
          depReadFails env n || nestedArtifactInvalid env cachePath n) = true :=
        List.any_eq_true.mpr ⟨n, hn', hbad⟩
      cases hfs : env.fs depName with
      | error e => simp [hfs]
      | ok buf =>
        simp only [hfs]
        by_cases hsp : (!cachePath.isEmpty && isCachedArtifact cachePath depName) = true
        · simp only [hsp, if_true]
          by_cases hv : (env.validate buf).1.status = SerStatus.Valid
          case neg =>
            simp [if_pos (show (env.validate buf).1.status ≠ SerStatus.Valid from hv)]
          case pos =>
            simp only [if_neg
              (show ¬((env.validate buf).1.status ≠ SerStatus.Valid) from by simp [hv])]
            simp [ih _ hrest]
        · simp only [Bool.not_eq_true] at hsp
          simp only [hsp, Bool.false_eq_true, if_false]
          simp [ih _ hrest]

/-- C3: if a rebuild's read set contains a dependency `b` that is a
cached compiled artifact (compiled-artifact type, inside the non-empty
cache directory) whose content deserializes with `Valid` status, then
on a successful collection every entry of `b`'s embedded ledger is
present by path in the resulting ledger (spliced unless already
present — deduplication by path), and every such path was forwarded to
the outer dependency tracker. -/
theorem collect_flattens_nested_ledger (env : Env)
    (inPath cachePath b : String) (dtDeps : List String)
    (ds : List FileDependency) (bbuf : Bytes)
    (hb : b ∈ dtDeps)
    (hread : env.fs b = Except.ok bbuf)
    (hart : (!cachePath.isEmpty && isCachedArtifact cachePath b) = true)
    (hvalid : (env.validate bbuf).1.status = SerStatus.Valid)
    (hcol : (collectDepsForSerialization env inPath cachePath dtDeps).1 = some ds) :
    ∀ d ∈ (env.validate bbuf).2,
      d.Path ∈ ds.map FileDependency.Path ∧
      Effect.addDep d.Path ∈
        (collectDepsForSerialization env inPath cachePath dtDeps).2.2 := by
  intro d hd
  simp only [collectDepsForSerialization] at hcol ⊢
  have hin : d.Path ∈ (collectGo env cachePath (dtDeps ++ [inPath]) []).2.1 :=
    collectGo_subdeps_in_seen env cachePath b bbuf hread hart hvalid
      (dtDeps ++ [inPath]) [] ds (by simp [hb]) hcol d hd
  rcases collectGo_seen_src env cachePath (dtDeps ++ [inPath]) [] ds hcol d.Path hin
    with h | h
  · simp at h
  · exact h

/-- Environment for the C3 witness: artifact `A` is being rebuilt; its
compile step read `/cache/B.swiftmodule`, a nested cached artifact
whose embedded ledger holds `/x.txt` — a file `A`'s compile never
read. -/
def wEnvC3 : Env where
  fs := fun p =>
    if p = "/cache/B.swiftmodule" then Except.ok [7]
    else if p = "/M.swiftinterface" then Except.ok [1]
    else Except.error ReadError.noSuchFile
  fsExists := fun _ => true
  hash := fun b => b.foldl (fun a x => a + x) 0
  validate := fun b =>
    if b = [7] then (⟨SerStatus.Valid, "B"⟩, [⟨1, 5, "/x.txt"⟩])
    else (⟨SerStatus.Malformed, ""⟩, [])

/-- The ledger produced in the C3 witness scenario. -/
def wC3ds : List FileDependency :=
  [⟨1, 7, "/cache/B.swiftmodule"⟩, ⟨1, 5, "/x.txt"⟩, ⟨1, 1, "/M.swiftinterface"⟩]

theorem collect_flattens_nested_ledger_witness :
    "/x.txt" ∈ wC3ds.map FileDependency.Path ∧
    Effect.addDep "/x.txt" ∈
      (collectDepsForSerialization wEnvC3 "/M.swiftinterface" "/cache/"
        ["/cache/B.swiftmodule"]).2.2 :=
  collect_flattens_nested_ledger wEnvC3 "/M.swiftinterface" "/cache/"
    "/cache/B.swiftmodule" ["/cache/B.swiftmodule"] wC3ds [7]
    (by simp) (by rfl) (by decide) (by rfl) (by rfl) ⟨1, 5, "/x.txt"⟩ (by simp [wEnvC3])

/-- Environment for the C4 counterexample and witness: the compile
step reported one ordinary read (`/a.txt`) besides the interface
input. -/
def wEnvC4 : Env where
  fs := fun p =>
    if p = "/M.swiftinterface" then Except.ok [1]
    else if p = "/a.txt" then Except.ok [2]
    else Except.error ReadError.noSuchFile
  fsExists := fun _ => true
  hash := fun b => b.foldl (fun a x => a + x) 0
  validate := fun _ => (⟨SerStatus.Malformed, ""⟩, [])

/-- C4 counterexample: the interface input path is appended *after*
the compile-reported read set (`InitialDepNames.push_back(InPath)`,
source line 256), so in a successful collection with a non-empty read
set the ledger's first entry is the first compile-reported file, not
the interface input — refuting "contains the original interface-text
input path as its first entry". -/
theorem collect_inPath_not_first :
    (collectDepsForSerialization wEnvC4 "/M.swiftinterface" "" ["/a.txt"]).1 =
      some [⟨1, 2, "/a.txt"⟩, ⟨1, 1, "/M.swiftinterface"⟩] ∧
    ("/a.txt" : String) ≠ "/M.swiftinterface" := by
  constructor
  · rfl
  · decide

/-- C4 (amended): for every successful collection, the dependency
ledger contains an entry for the original interface-text input path —
added unconditionally, even if the compile step did not itself report
reading it, as the last seed name rather than the first — carrying the
input's current fingerprint. -/
theorem collect_contains_inPath (env : Env) (inPath cachePath : String)
    (dtDeps : List String) (ds : List FileDependency) (buf : Bytes)
    (hbuf : env.fs inPath = Except.ok buf)
    (hcol : (collectDepsForSerialization env inPath cachePath dtDeps).1 = some ds) :
    (⟨buf.length, env.hash buf, inPath⟩ : FileDependency) ∈ ds := by
  simp only [collectDepsForSerialization] at hcol
  obtain ⟨b, hb, hm⟩ :=
    collectGo_mem_of_success env cachePath (dtDeps ++ [inPath]) [] ds hcol inPath
      (by simp)
  rw [hbuf] at hb
  cases hb
  exact hm

theorem collect_contains_inPath_witness :
    (⟨1, 1, "/M.swiftinterface"⟩ : FileDependency) ∈
      [(⟨1, 2, "/a.txt"⟩ : FileDependency), ⟨1, 1, "/M.swiftinterface"⟩] :=
  collect_contains_inPath wEnvC4 "/M.swiftinterface" "" ["/a.txt"]
    [⟨1, 2, "/a.txt"⟩, ⟨1, 1, "/M.swiftinterface"⟩] [1] (by rfl) (by rfl)

/-- Outcome of an opaque external pipeline step, which may terminate
abnormally (signal, unhandled fault). -/
inductive StepOutcome (α : Type)
  | ok (a : α)
  | err
  | crash
deriving DecidableEq, Repr

/-- Failure kinds of one rebuild, distinguished in the source by the
diagnostic emitted at the corresponding early return (the C++ function
itself returns a single `bool`): unreadable input (line 59), missing
version or flags header line (lines 68/73), major-version mismatch
(line 335), sub-invocation argument parse failure (line 343), resolved
module name differing from the expected one (line 349), failures of
the compile pipeline (setup/sema/SILGen/SIL-processing or any
diagnosed error, lines 374-420), dependency-collection failure (line
403), and abnormal termination caught by the isolation boundary. -/
inductive BuildErr
  | openInputError
  | malformedInterface
  | unsupportedVersion
  | argParseError
  | identityMismatch
  | compileError
  | depExtractionError
  | internalCrash
deriving DecidableEq, Repr

/-- Embedding of `InterfaceFormatVersion` (source line 48). -/
def interfaceFormatVersion : List Nat := [1, 0]

/-- Embedding of `swift::version::Version::asMajorVersion`. -/
def majorVersion (v : List Nat) : Nat := v.headD 0

/-- External collaborators of the rebuild step, on top of `Env`:
the two header regex extractions of
`extractSwiftInterfaceVersionAndArgs`, argument parsing
(`CompilerInvocation::parseArgs`, abstracted to its effect on the
resolved module name), the compile front half
(`CompilerInstance::setup` + `performSema` + SILGen, yielding the
sub-instance dependency tracker's read set), the back half
(`performSILProcessing`, during which the `serialize` callback writes
the artifact), and the final `Diags.hadAnyError()` check. -/
structure BuildEnv where
  core : Env
  parseVersion : Bytes → Option (List Nat)
  parseFlags : Bytes → Option (List String)
  applyArgs : List String → String → Option String
  sema : StepOutcome (List String)
  sil : StepOutcome Unit
  diagsHadError : Bool

/-- Result of the closure run inside the crash-isolation boundary:
either it finished (with the `SubError` flag refined to a failure
kind), or it terminated abnormally partway through. -/
inductive InnerResult
  | finished (err : Option BuildErr) (tr : List Effect)
  | crashed (tr : List Effect)
deriving DecidableEq, Repr

/-- The body of the lambda passed to
`llvm::CrashRecoveryContext().RunSafelyOnThread` (source lines
308-421): extract version and flags from the interface text, gate on
the major format version, parse the embedded flags, check the resolved
module name, run the compile front half, collect the dependency
ledger, then run SIL processing during which serialization emits the
artifact.  A `.crashed` value marks abnormal termination inside the
corresponding external step; `Effect.writeFile` is emitted only when
SIL processing (and with it the `serialize` callback) ran to
completion. -/
def buildInner (env : BuildEnv) (inPath outPath cachePath expectedName : String) :
    InnerResult :=
  match env.core.fs inPath with
  | .error _ => .finished (some .openInputError) [Effect.readFile inPath]
  | .ok buf =>
    match env.parseVersion buf with
    | none => .finished (some .malformedInterface) [Effect.readFile inPath]
    | some vers =>
      match env.parseFlags buf with
      | none => .finished (some .malformedInterface) [Effect.readFile inPath]
      | some subArgs =>
        if majorVersion vers ≠ majorVersion interfaceFormatVersion then
          .finished (some .unsupportedVersion) [Effect.readFile inPath]
        else
          match env.applyArgs subArgs expectedName with
          | none => .finished (some .argParseError) [Effect.readFile inPath]
          | some resolvedName =>
            if resolvedName ≠ expectedName then
              .finished (some .identityMismatch) [Effect.readFile inPath]
            else
              match env.sema with
              | .crash => .crashed [Effect.readFile inPath, Effect.compileInvoked]
              | .err =>
                .finished (some .compileError)
                  [Effect.readFile inPath, Effect.compileInvoked]
              | .ok readFiles =>
                let c := collectDepsForSerialization env.core inPath cachePath readFiles
                match c.1 with
                | none =>
                  .finished (some .depExtractionError)
                    (Effect.readFile inPath :: Effect.compileInvoked :: c.2.2)
                | some _ =>
                  match env.sil with
                  | .crash =>
                    .crashed (Effect.readFile inPath :: Effect.compileInvoked :: c.2.2)
                  | .err =>
                    .finished (some .compileError)
                      (Effect.readFile inPath :: Effect.compileInvoked :: c.2.2)
                  | .ok _ =>
                    if env.diagsHadError then
                      .finished (some .compileError)
                        (Effect.readFile inPath :: Effect.compileInvoked ::
                          (c.2.2 ++ [Effect.writeFile outPath]))
                    else
                      .finished none
                        (Effect.readFile inPath :: Effect.compileInvoked ::
                          (c.2.2 ++ [Effect.writeFile outPath]))

/-- Modelled from the spec: `llvm::CrashRecoveryContext::RunSafelyOnThread`
is not part of this repository.  Per §4.3 CrashIsolation, the scoped
isolation boundary runs the closure and "if the compile step
terminates abnormally (signal, unhandled fault), the isolation
boundary catches it and reports `Failed(InternalCrash)` to the caller
instead of propagating the fault to the host process"; the source
turns `!RunSuccess` into the same `true` (failure) return as an
ordinary `SubError` (line 422). -/
def runWithCrashIsolation : InnerResult → Option BuildErr × List Effect
  | .finished e tr => (e, tr)
  | .crashed tr => (some .internalCrash, tr)

/-- Embedding of `buildSwiftModuleFromSwiftInterface` (source lines 303-423): the
whole rebuild body runs under the crash-isolation boundary; the caller
always receives an ordinary result value. -/
def buildSwiftModuleFromSwiftInterface (env : BuildEnv)
    (inPath outPath cachePath expectedName : String) :
    Option BuildErr × List Effect :=
  runWithCrashIsolation (buildInner env inPath outPath cachePath expectedName)

/-- C6: once the interface text is readable and both header lines
match, the rebuild fails with `UnsupportedVersion` exactly when the
extracted major version differs from the toolchain's supported major
version (minor differences under the same major are accepted: no
`UnsupportedVersion` arises), and on a major-version mismatch the
compile step is never invoked. -/
theorem build_version_gate (env : BuildEnv)
    (inPath outPath cachePath expectedName : String)
    (buf : Bytes) (vers : List Nat) (subArgs : List String)
    (hread : env.core.fs inPath = Except.ok buf)
    (hv : env.parseVersion buf = some vers)
    (hf : env.parseFlags buf = some subArgs) :
    ((buildSwiftModuleFromSwiftInterface env inPath outPath cachePath expectedName).1 =
        some BuildErr.unsupportedVersion ↔
      majorVersion vers ≠ majorVersion interfaceFormatVersion) ∧
    (majorVersion vers ≠ majorVersion interfaceFormatVersion →
      Effect.compileInvoked ∉
        (buildSwiftModuleFromSwiftInterface env inPath outPath cachePath
          expectedName).2) := by
  simp only [buildSwiftModuleFromSwiftInterface, buildInner, hread, hv, hf]
  by_cases hm : majorVersion vers ≠ majorVersion interfaceFormatVersion
  · simp [hm, runWithCrashIsolation]
  · simp only [hm, if_false]
    cases ha : env.applyArgs subArgs expectedName with
    | none => simp [hm, runWithCrashIsolation]
    | some n =>
      by_cases hn : n ≠ expectedName
      · simp [hn, hm, runWithCrashIsolation]
      · simp only [hn, if_false]
        cases hs : env.sema with
        | crash => simp [hm, runWithCrashIsolation]
        | err => simp [hm, runWithCrashIsolation]
        | ok readFiles =>
          cases hc : (collectDepsForSerialization env.core inPath cachePath readFiles).1
            with
          | none => simp [hc, hm, runWithCrashIsolation]
          | some ds =>
            cases hsil : env.sil with
            | crash => simp [hc, hm, runWithCrashIsolation]
            | err => simp [hc, hm, runWithCrashIsolation]
            | ok u =>
              by_cases hd : env.diagsHadError = true <;>
                simp [hc, hd, hm, runWithCrashIsolation]

/-- Environment for the C6 witness: a well-formed interface text
declaring format version 2.0 against the supported major version 1. -/
def wBEnvC6 : BuildEnv where
  core :=
    { fs := fun p =>
        if p = "/M.swiftinterface" then Except.ok [1]
        else Except.error ReadError.noSuchFile
      fsExists := fun _ => true
      hash := fun b => b.foldl (fun a x => a + x) 0
      validate := fun _ => (⟨SerStatus.Malformed, ""⟩, []) }
  parseVersion := fun _ => some [2, 0]
  parseFlags := fun _ => some []
  applyArgs := fun _ n => some n
  sema := .ok []
  sil := .ok ()
  diagsHadError := false

theorem build_version_gate_witness :
    (buildSwiftModuleFromSwiftInterface wBEnvC6 "/M.swiftinterface" "/out" "" "M").1 =
        some BuildErr.unsupportedVersion ∧
    Effect.compileInvoked ∉
      (buildSwiftModuleFromSwiftInterface wBEnvC6 "/M.swiftinterface" "/out" "" "M").2 :=
  let h := build_version_gate wBEnvC6 "/M.swiftinterface" "/out" "" "M" [1] [2, 0] []
    (by rfl) (by rfl) (by rfl)
  ⟨h.1.mpr (by decide), h.2 (by decide)⟩

/-- C7: when the module name resolved after parsing the interface's
embedded flags differs from the name expected by the caller, the
rebuild fails with `IdentityMismatch`, the compile step is never
invoked, and no artifact is written. -/
theorem build_identity_mismatch (env : BuildEnv)
    (inPath outPath cachePath expectedName : String)
    (buf : Bytes) (vers : List Nat) (subArgs : List String) (resolvedName : String)
    (hread : env.core.fs inPath = Except.ok buf)
    (hv : env.parseVersion buf = some vers)
    (hf : env.parseFlags buf = some subArgs)
    (hmaj : majorVersion vers = majorVersion interfaceFormatVersion)
    (ha : env.applyArgs subArgs expectedName = some resolvedName)
    (hne : resolvedName ≠ expectedName) :
    (buildSwiftModuleFromSwiftInterface env inPath outPath cachePath expectedName).1 =
      some BuildErr.identityMismatch ∧
    Effect.compileInvoked ∉
      (buildSwiftModuleFromSwiftInterface env inPath outPath cachePath expectedName).2 ∧
    (∀ q, Effect.writeFile q ∉
      (buildSwiftModuleFromSwiftInterface env inPath outPath cachePath
        expectedName).2) := by
  simp [buildSwiftModuleFromSwiftInterface, buildInner, hread, hv, hf, hmaj, ha, hne,
    runWithCrashIsolation]

/-- Environment for the C7 witness: the interface's embedded flags
resolve the module name to `N` while the caller expects `M`. -/
def wBEnvC7 : BuildEnv where
  core :=
    { fs := fun p =>
        if p = "/M.swiftinterface" then Except.ok [1]
        else Except.error ReadError.noSuchFile
      fsExists := fun _ => true
      hash := fun b => b.foldl (fun a x => a + x) 0
      validate := fun _ => (⟨SerStatus.Malformed, ""⟩, []) }
  parseVersion := fun _ => some [1, 0]
  parseFlags := fun _ => some ["-module-name", "N"]
  applyArgs := fun _ _ => some "N"
  sema := .ok []
  sil := .ok ()
  diagsHadError := false

theorem build_identity_mismatch_witness :
    (buildSwiftModuleFromSwiftInterface wBEnvC7 "/M.swiftinterface" "/out" "" "M").1 =
      some BuildErr.identityMismatch ∧
    Effect.compileInvoked ∉
      (buildSwiftModuleFromSwiftInterface wBEnvC7 "/M.swiftinterface" "/out" "" "M").2 ∧
    Effect.writeFile "/out" ∉
      (buildSwiftModuleFromSwiftInterface wBEnvC7 "/M.swiftinterface" "/out" "" "M").2 :=
  let h := build_identity_mismatch wBEnvC7 "/M.swiftinterface" "/out" "" "M" [1] [1, 0]
    ["-module-name", "N"] "N" (by rfl) (by rfl) (by rfl) (by rfl) (by rfl) (by decide)
  ⟨h.1, h.2.1, h.2.2 "/out"⟩

/-- C5: if any seed dependency of the rebuild's read set (including
the interface input appended to it) is unreadable, or is a nested
cached artifact whose embedded ledger fails to deserialize, then the
dependency collection yields no ledger, the whole rebuild fails with
`DependencyExtractionError`, and no artifact write occurs — the
incomplete ledger is never cached. -/
theorem collect_failure_aborts_build (env : BuildEnv)
    (inPath outPath cachePath expectedName : String)
    (buf : Bytes) (vers : List Nat) (subArgs : List String)
    (readFiles : List String)
    (hread : env.core.fs inPath = Except.ok buf)
    (hv : env.parseVersion buf = some vers)
    (hf : env.parseFlags buf = some subArgs)
    (hmaj : majorVersion vers = majorVersion interfaceFormatVersion)
    (ha : env.applyArgs subArgs expectedName = some expectedName)
    (hsema : env.sema = StepOutcome.ok readFiles)
    (hbad : ((readFiles ++ [inPath]).any fun n =>
        depReadFails env.core n || nestedArtifactInvalid env.core cachePath n) = true) :
    (collectDepsForSerialization env.core inPath cachePath readFiles).1 = none ∧
    (buildSwiftModuleFromSwiftInterface env inPath outPath cachePath expectedName).1 =
      some BuildErr.depExtractionError ∧
    (∀ q, Effect.writeFile q ∉
      (buildSwiftModuleFromSwiftInterface env inPath outPath cachePath
        expectedName).2) := by
  have hnone : (collectDepsForSerialization env.core inPath cachePath readFiles).1 =
      none := by
    simpa [collectDepsForSerialization] using
      collectGo_fails env.core cachePath (readFiles ++ [inPath]) [] hbad
  refine ⟨hnone, ?_, ?_⟩
  · simp [buildSwiftModuleFromSwiftInterface, buildInner, hread, hv, hf, hmaj, ha,
      hsema, hnone, runWithCrashIsolation]
  · intro q hq
    simp only [buildSwiftModuleFromSwiftInterface, buildInner, hread, hv, hf,
      hsema, hnone, runWithCrashIsolation] at hq
    simp only [if_neg (show ¬(majorVersion vers ≠ majorVersion interfaceFormatVersion)
      from by simp [hmaj]), ha] at hq
    simp only [if_neg (show ¬(expectedName ≠ expectedName) from by simp)] at hq
    rcases List.mem_cons.mp hq with h1 | h2
    · exact Effect.noConfusion h1
    · rcases List.mem_cons.mp h2 with h3 | h4
      · exact Effect.noConfusion h3
      · rcases collectGo_effects env.core cachePath (readFiles ++ [inPath]) [] _ h4 with
          ⟨r, hr⟩ | ⟨r, hr⟩ <;> exact Effect.noConfusion hr

/-- Environment for the C5 witness: the compile step reports having
read a file that no longer exists on the live filesystem. -/
def wBEnvC5 : BuildEnv where
  core :=
    { fs := fun p =>
        if p = "/M.swiftinterface" then Except.ok [1]
        else Except.error ReadError.noSuchFile
      fsExists := fun _ => true
      hash := fun b => b.foldl (fun a x => a + x) 0
      validate := fun _ => (⟨SerStatus.Malformed, ""⟩, []) }
  parseVersion := fun _ => some [1, 0]
  parseFlags := fun _ => some []
  applyArgs := fun _ n => some n
  sema := .ok ["/gone.txt"]
  sil := .ok ()
  diagsHadError := false

theorem collect_failure_aborts_build_witness :
    (collectDepsForSerialization wBEnvC5.core "/M.swiftinterface" "" ["/gone.txt"]).1 =
      none ∧
    (buildSwiftModuleFromSwiftInterface wBEnvC5 "/M.swiftinterface" "/out" "" "M").1 =
      some BuildErr.depExtractionError ∧
    Effect.writeFile "/out" ∉
      (buildSwiftModuleFromSwiftInterface wBEnvC5 "/M.swiftinterface" "/out" "" "M").2 :=
  let h := collect_failure_aborts_build wBEnvC5 "/M.swiftinterface" "/out" "" "M"
    [1] [1, 0] [] ["/gone.txt"] (by rfl) (by rfl) (by rfl) (by rfl) (by rfl) (by rfl)
    (by decide)
  ⟨h.1, h.2.1, h.2.2 "/out"⟩

/-- C2: if the compile pipeline terminates abnormally inside the
crash-isolation boundary — in the front half (setup/sema/SILGen) or in
SIL processing before serialization completes — the rebuild entry
point still returns an ordinary value, namely the `InternalCrash`
failure, no completed artifact write is recorded, and (fail-closed
validation) any artifact content that does not deserialize with
`Valid` status is rejected by a later up-to-date check, so a torn
artifact is never accepted. -/
theorem build_crash_isolated (env : BuildEnv)
    (inPath outPath cachePath expectedName : String)
    (buf : Bytes) (vers : List Nat) (subArgs : List String)
    (hread : env.core.fs inPath = Except.ok buf)
    (hv : env.parseVersion buf = some vers)
    (hf : env.parseFlags buf = some subArgs)
    (hmaj : majorVersion vers = majorVersion interfaceFormatVersion)
    (ha : env.applyArgs subArgs expectedName = some expectedName)
    (hcrash : env.sema = StepOutcome.crash ∨
      (∃ readFiles ds, env.sema = StepOutcome.ok readFiles ∧
        (collectDepsForSerialization env.core inPath cachePath readFiles).1 = some ds ∧
        env.sil = StepOutcome.crash)) :
    (buildSwiftModuleFromSwiftInterface env inPath outPath cachePath expectedName).1 =
      some BuildErr.internalCrash ∧
    (∀ q, Effect.writeFile q ∉
      (buildSwiftModuleFromSwiftInterface env inPath outPath cachePath expectedName).2) ∧
    (∀ (v : Env) (p : String) (c : Bytes), v.fs p = Except.ok c →
      (v.validate c).1.status ≠ SerStatus.Valid →
      (swiftModuleIsUpToDate v p).1 = false) := by
  refine ⟨?_, ?_, ?_⟩
  · rcases hcrash with hsema | ⟨readFiles, ds, hsema, hcol, hsil⟩
    · simp [buildSwiftModuleFromSwiftInterface, buildInner, hread, hv, hf, hmaj, ha,
        hsema, runWithCrashIsolation]
    · simp [buildSwiftModuleFromSwiftInterface, buildInner, hread, hv, hf, hmaj, ha,
        hsema, hcol, hsil, runWithCrashIsolation]
  · intro q hq
    rcases hcrash with hsema | ⟨readFiles, ds, hsema, hcol, hsil⟩
    · simp [buildSwiftModuleFromSwiftInterface, buildInner, hread, hv, hf, hmaj, ha,
        hsema, runWithCrashIsolation] at hq
    · simp only [buildSwiftModuleFromSwiftInterface, buildInner, hread, hv, hf,
        hsema, hcol, hsil, runWithCrashIsolation] at hq
      simp only [if_neg (show ¬(majorVersion vers ≠ majorVersion interfaceFormatVersion)
        from by simp [hmaj]), ha] at hq
      simp only [if_neg (show ¬(expectedName ≠ expectedName) from by simp)] at hq
      rcases List.mem_cons.mp hq with h1 | h2
      · exact Effect.noConfusion h1
      · rcases List.mem_cons.mp h2 with h3 | h4
        · exact Effect.noConfusion h3
        · rcases collectGo_effects env.core cachePath (readFiles ++ [inPath]) [] _ h4
            with ⟨r, hr⟩ | ⟨r, hr⟩ <;> exact Effect.noConfusion hr
  · intro v p c hfs hnv
    simp [swiftModuleIsUpToDate, hfs, hnv]

/-- Environment for the C2 witness: the compile front half crashes. -/
def wBEnvC2 : BuildEnv where
  core :=
    { fs := fun p =>
        if p = "/M.swiftinterface" then Except.ok [1]
        else Except.error ReadError.noSuchFile
      fsExists := fun _ => true
      hash := fun b => b.foldl (fun a x => a + x) 0
      validate := fun _ => (⟨SerStatus.Malformed, ""⟩, []) }
  parseVersion := fun _ => some [1, 0]
  parseFlags := fun _ => some []
  applyArgs := fun _ n => some n
  sema := .crash
  sil := .ok ()
  diagsHadError := false

theorem build_crash_isolated_witness :
    (buildSwiftModuleFromSwiftInterface wBEnvC2 "/M.swiftinterface" "/out" "" "M").1 =
      some BuildErr.internalCrash ∧
    Effect.writeFile "/out" ∉
      (buildSwiftModuleFromSwiftInterface wBEnvC2 "/M.swiftinterface" "/out" "" "M").2 ∧
    (swiftModuleIsUpToDate wBEnvC2.core "/M.swiftinterface").1 = false :=
  let h := build_crash_isolated wBEnvC2 "/M.swiftinterface" "/out" "" "M" [1] [1, 0] []
    (by rfl) (by rfl) (by rfl) (by rfl) (by rfl) (Or.inl (by rfl))
  ⟨h.1, h.2.1 "/out", h.2.2 wBEnvC2.core "/M.swiftinterface" [1] (by rfl) (by decide)⟩

/-- C8: during a validation pass every examined ledger dependency —
including the first stale one, on a miss — is reported to the outer
dependency tracker before its content is compared, and the validator
emits no mutating effect: no write, no rebuild, no compile
invocation (a pure read-and-compare pass). -/
theorem validator_reports_and_readonly (env : Env) (outPath : String) :
    (∀ e ∈ (swiftModuleIsUpToDate env outPath).2, e.isMutating = false) ∧
    (∀ buf, env.fs outPath = Except.ok buf →
      (env.validate buf).1.status = SerStatus.Valid →
      ∀ d ∈ depsExamined env (env.validate buf).2,
        Effect.addDep d.Path ∈ (swiftModuleIsUpToDate env outPath).2) := by
  constructor
  · intro e he
    cases hfs : env.fs outPath with
    | error err =>
      simp only [swiftModuleIsUpToDate, hfs] at he
      simp at he
      simp [he, Effect.isMutating]
    | ok buf =>
      by_cases hv : (env.validate buf).1.status = SerStatus.Valid
      · simp only [swiftModuleIsUpToDate, hfs,
          if_neg (show ¬((env.validate buf).1.status ≠ SerStatus.Valid) from by
            simp [hv]), checkDeps_eq] at he
        rcases List.mem_cons.mp he with rfl | h2
        · simp [Effect.isMutating]
        · obtain ⟨d, _, hd⟩ := List.mem_flatMap.mp h2
          simp only [depCheckEvents] at hd
          rcases List.mem_cons.mp hd with rfl | hd2
          · simp [Effect.isMutating]
          · simp at hd2
            simp [hd2, Effect.isMutating]
      · simp only [swiftModuleIsUpToDate, hfs,
          if_pos (show (env.validate buf).1.status ≠ SerStatus.Valid from hv)] at he
        simp at he
        simp [he, Effect.isMutating]
  · intro buf hfs hv d hd
    simp only [swiftModuleIsUpToDate, hfs,
      if_neg (show ¬((env.validate buf).1.status ≠ SerStatus.Valid) from by simp [hv]),
      checkDeps_eq]
    exact List.mem_cons.mpr (Or.inr (List.mem_flatMap.mpr
      ⟨d, hd, by simp [depCheckEvents]⟩))

theorem validator_reports_and_readonly_witness :
    Effect.addDep "/d/b.txt" ∈ (swiftModuleIsUpToDate wEnvC1 "/cache/M.swiftmodule").2 :=
  (validator_reports_and_readonly wEnvC1 "/cache/M.swiftmodule").2 [9] (by rfl) (by rfl)
    ⟨1, 99, "/d/b.txt"⟩ (by decide)

/-- Embedding of `ModuleLoadingMode`. -/
inductive LoadMode
  | onlySerialized
  | preferSerialized
  | preferParseable
deriving DecidableEq, Repr

/-- The `std::error_code` outcomes of
`ParseableInterfaceModuleLoader::openModuleFiles`:
`errc::no_such_file_or_directory` (the interface text is absent — this
loader does not apply), `errc::not_supported` (defer to the lower-level
serialized loader), `errc::invalid_argument` (the rebuild failed), or
delegation to `SerializedModuleLoaderBase::openModuleFiles` on the
cached artifact. -/
inductive OpenResult
  | notFound
  | deferredToSerialized
  | invalidInterface
  | delegated
deriving DecidableEq, Repr

/-- Both deferral outcomes hand the request back to the rest of the
host's loader chain (the spec's `Deferred`). -/
def OpenResult.isDeferred : OpenResult → Bool
  | .notFound => true
  | .deferredToSerialized => true
  | _ => false

/-- Embedding of `serializedASTLooksValidOrCannotBeRead` (source lines 425-434):
true when the adjacent artifact deserializes with `Valid` status, or
when it exists but cannot be read for any reason other than
file-not-found (so the other module loader can diagnose it). -/
def serializedASTLooksValidOrCannotBeRead (env : Env) (modPath : String) : Bool :=
  match env.fs modPath with
  | .error e => e ≠ ReadError.noSuchFile
  | .ok buf => (env.validate buf).1.status = SerStatus.Valid

/-- Embedding of `ParseableInterfaceModuleLoader::openModuleFiles` (source lines
439-508).  Path computation (`llvm::sys::path` appends,
extension replacement, and the `getCacheHash`-derived output path) is
external llvm hashing/path machinery; the already-computed `modPath`
(adjacent artifact), `inPath` (interface text) and `outPath` (cached
output slot) are taken as inputs.  Bail with `notFound` when the
interface text does not exist; in `preferSerialized` mode, defer when
the adjacent artifact looks valid or cannot be read; otherwise
validate the cache slot and rebuild on a miss, turning a rebuild
failure into `invalidInterface` and otherwise delegating to the
serialized loader. -/
def openModuleFiles (env : BuildEnv) (mode : LoadMode)
    (modPath inPath outPath cacheDir expectedName : String) :
    OpenResult × List Effect :=
  if ¬env.core.fsExists inPath then (.notFound, [])
  else
    let checkTr : List Effect :=
      if mode = LoadMode.preferSerialized then [Effect.readFile modPath] else []
    if mode = LoadMode.preferSerialized ∧
        serializedASTLooksValidOrCannotBeRead env.core modPath then
      (.deferredToSerialized, checkTr)
    else
      let v := swiftModuleIsUpToDate env.core outPath
      if v.1 then (.delegated, checkTr ++ v.2)
      else
        let b := buildSwiftModuleFromSwiftInterface env inPath outPath cacheDir
          expectedName
        match b.1 with
        | some _ => (.invalidInterface, checkTr ++ v.2 ++ Effect.rebuild outPath :: b.2)
        | none => (.delegated, checkTr ++ v.2 ++ Effect.rebuild outPath :: b.2)

/-- C9: in `PreferSerialized` mode, when a precompiled artifact sits
alongside the interface file and deserializes with `Valid` status
(basic validity only), the load returns the not-supported deferral so
the lower-level serialized loader takes the artifact as-is — the only
effect is the single artifact read: no ledger validation, no tracker
reporting, no rebuild; and when the interface-text file does not exist
the load returns the not-found deferral immediately, with no effects
at all. -/
theorem openModuleFiles_prefer_serialized (env : BuildEnv)
    (modPath inPath outPath cacheDir expectedName : String) :
    (¬env.core.fsExists inPath = true →
      openModuleFiles env LoadMode.preferSerialized modPath inPath outPath cacheDir
          expectedName = (OpenResult.notFound, []) ∧
        OpenResult.notFound.isDeferred = true) ∧
    (∀ buf, env.core.fsExists inPath = true →
      env.core.fs modPath = Except.ok buf →
      (env.core.validate buf).1.status = SerStatus.Valid →
      openModuleFiles env LoadMode.preferSerialized modPath inPath outPath cacheDir
          expectedName = (OpenResult.deferredToSerialized, [Effect.readFile modPath]) ∧
        OpenResult.deferredToSerialized.isDeferred = true) := by
  constructor
  · intro hex
    constructor
    · simp [openModuleFiles, hex]
    · rfl
  · intro buf hex hfs hv
    constructor
    · have hlook : serializedASTLooksValidOrCannotBeRead env.core modPath = true := by
        simp [serializedASTLooksValidOrCannotBeRead, hfs, hv]
      simp [openModuleFiles, hex, hlook]
    · rfl

/-- Environment for the C9 witness: a valid-looking artifact sits next
to the interface text. -/
def wBEnvC9 : BuildEnv where
  core :=
    { fs := fun p =>
        if p = "/lib/M.swiftmodule" then Except.ok [9]
        else if p = "/lib/M.swiftinterface" then Except.ok [1]
        else Except.error ReadError.noSuchFile
      fsExists := fun p => p = "/lib/M.swiftinterface"
      hash := fun b => b.foldl (fun a x => a + x) 0
      validate := fun b =>
        if b = [9] then (⟨SerStatus.Valid, "M"⟩, []) else (⟨SerStatus.Malformed, ""⟩, []) }
  parseVersion := fun _ => some [1, 0]
  parseFlags := fun _ => some []
  applyArgs := fun _ n => some n
  sema := .ok []
  sil := .ok ()
  diagsHadError := false

theorem openModuleFiles_prefer_serialized_witness :
    openModuleFiles wBEnvC9 LoadMode.preferSerialized "/lib/M.swiftmodule"
        "/lib/M.swiftinterface" "/cache/M-K.swiftmodule" "/cache/" "M" =
      (OpenResult.deferredToSerialized, [Effect.readFile "/lib/M.swiftmodule"]) :=
  ((openModuleFiles_prefer_serialized wBEnvC9 "/lib/M.swiftmodule"
      "/lib/M.swiftinterface" "/cache/M-K.swiftmodule" "/cache/" "M").2 [9]
    (by rfl) (by rfl) (by rfl)).1

/-- C10: in `PreferSerialized` mode, when the adjacent artifact file
exists but cannot be read for any reason other than file-not-found,
the load likewise returns the not-supported deferral — handing the
artifact to the lower-level loader to diagnose — with no ledger
validation and no rebuild. -/
theorem openModuleFiles_unreadable_artifact_defers (env : BuildEnv)
    (modPath inPath outPath cacheDir expectedName : String) (e : ReadError)
    (hex : env.core.fsExists inPath = true)
    (hfs : env.core.fs modPath = Except.error e)
    (hne : e ≠ ReadError.noSuchFile) :
    openModuleFiles env LoadMode.preferSerialized modPath inPath outPath cacheDir
        expectedName = (OpenResult.deferredToSerialized, [Effect.readFile modPath]) ∧
      OpenResult.deferredToSerialized.isDeferred = true := by
  constructor
  · have hlook : serializedASTLooksValidOrCannotBeRead env.core modPath = true := by
      simp [serializedASTLooksValidOrCannotBeRead, hfs, hne]
    simp [openModuleFiles, hex, hlook]
  · rfl

/-- Environment for the C10 witness: the adjacent artifact exists but
reading it fails with a non-not-found error. -/
def wBEnvC10 : BuildEnv where
  core :=
    { fs := fun p =>
        if p = "/lib/M.swiftmodule" then Except.error ReadError.otherError
        else if p = "/lib/M.swiftinterface" then Except.ok [1]
        else Except.error ReadError.noSuchFile
      fsExists := fun p => p = "/lib/M.swiftinterface"
      hash := fun b => b.foldl (fun a x => a + x) 0
      validate := fun _ => (⟨SerStatus.Malformed, ""⟩, []) }
  parseVersion := fun _ => some [1, 0]
  parseFlags := fun _ => some []
  applyArgs := fun _ n => some n
  sema := .ok []
  sil := .ok ()
  diagsHadError := false

theorem openModuleFiles_unreadable_artifact_defers_witness :
    openModuleFiles wBEnvC10 LoadMode.preferSerialized "/lib/M.swiftmodule"
        "/lib/M.swiftinterface" "/cache/M-K.swiftmodule" "/cache/" "M" =
      (OpenResult.deferredToSerialized, [Effect.readFile "/lib/M.swiftmodule"]) :=
  (openModuleFiles_unreadable_artifact_defers wBEnvC10 "/lib/M.swiftmodule"
    "/lib/M.swiftinterface" "/cache/M-K.swiftmodule" "/cache/" "M"
    ReadError.otherError (by rfl) (by rfl) (by decide)).1

end ParseableInterface
